import Mathlib

/-!
Verification of the temporal-resolution and canonicalization subsystem of
`nkdsu/apps/vote/mixins.py` (the `ShowDetailMixin` / `ThisShowDetailMixin` /
`ArchiveList` views), as a shallow embedding.

Time model: instants are natural numbers (minutes); a calendar date is the
day number `instant / minutesPerDay`, a year is `instant / minutesPerYear`,
and "midnight of date `d` in the configured timezone" (the result of
`timezone.make_aware(datetime.strptime(...))`) is the instant
`d * minutesPerDay`.  This models one fixed process-wide timezone, as the
deployment configures.
-/

/-- One show/episode row: primary key, timezone-aware `showtime` and `end`
instants (`end` is a Lean keyword, rendered `end_`). -/
structure Show where
  pk : Nat
  showtime : Nat
  end_ : Nat
deriving DecidableEq, Repr

def minutesPerDay : Nat := 1440

def minutesPerYear : Nat := 525600

/-- The calendar date (`datetime.date()`) of an instant. -/
def dateOf (t : Nat) : Nat := t / minutesPerDay

/-- The calendar year (`datetime.year`) of an instant. -/
def yearOf (t : Nat) : Nat := t / minutesPerYear

/-- `timezone.make_aware` applied to the naive midnight produced by
`strptime` on a bare date: the instant starting calendar date `d`. -/
def midnight (d : Nat) : Nat := d * minutesPerDay

/-- `strftime('%Y-%m-%d')` on a date, abstracted to its day number's
decimal rendering (the canonical serialization in this time model). -/
def fmtDate (d : Nat) : String := toString d

/-- `ShowDetailMixin._get_object`: `self.date is None` means take the whole
queryset, drop incomplete shows unless `default_to_current`, order by
`-end` and take row `[0]`; a present `self.date` (a midnight instant) means
filter `showtime__gt=self.date`, order by `showtime`, take row `[0]`.
`none` is the translated `Http404` from the empty queryset. -/
def _get_object (shows : List Show) (now : Nat) (default_to_current : Bool)
    (date : Option Nat) : Option Show :=
  match date with
  | none =>
    let qs := if default_to_current then shows
              else shows.filter (fun s => s.end_ < now)
    (List.insertionSort (fun a b => b.end_ ≤ a.end_) qs).head?
  | some d =>
    (List.insertionSort (fun a b => a.showtime ≤ b.showtime)
      (shows.filter (fun s => d < s.showtime))).head?

/-- Modelled from the spec: `Show.at` lives in `nkdsu/apps/vote/models.py`,
which is not part of the sources under verification.  Per the spec's
`InProgressOrMostRecentCompleted` policy it yields the episode whose
`[showtime, end)` interval contains "now" and otherwise falls back to the
`MostRecentCompleted` rule (greatest `end` strictly before now), failing
(`DoesNotExist`, here `none`) only when neither exists. -/
def Show.at_ (shows : List Show) (now : Nat) : Option Show :=
  match shows.find? (fun s => s.showtime ≤ now && now < s.end_) with
  | some s => some s
  | none =>
    (List.insertionSort (fun a b => b.end_ ≤ a.end_)
      (shows.filter (fun s => s.end_ < now))).head?

/-- Modelled from the spec: `Show.current` (also in the absent
`models.py`) is the "current" lookup used by `ArchiveList.get_queryset`,
the episode designated current under the in-progress-or-most-recent rule. -/
def Show.current (shows : List Show) (now : Nat) : Option Show :=
  Show.at_ shows now

/-- `ThisShowDetailMixin.get_object`: with no date, `Show.at(timezone.now())`
(`DoesNotExist` surfacing as `Http404`/`none`); with a date, defer to the
inherited `ShowDetailMixin._get_object` (whose `default_to_current` is the
inherited `False`). -/
def ThisShowDetailMixin.get_object (shows : List Show) (now : Nat)
    (date : Option Nat) : Option Show :=
  match date with
  | none => Show.at_ shows now
  | some d => _get_object shows now false (some d)

/-- The two `datetime.strptime` attempts on the raw `date` path segment:
the verdict of the canonical `%Y-%m-%d` attempt and of the legacy
`%d-%m-%Y` attempt, each `some` calendar-day-number on success. -/
structure RawDate where
  iso? : Option Nat
  legacy? : Option Nat
deriving DecidableEq, Repr

/-- URL kwargs (path components) as an association list. -/
abbrev Kwargs : Type := List (String × String)

/-- `new_kwargs = copy(kwargs); new_kwargs['date'] = v`. -/
def setKw (kw : Kwargs) (k v : String) : Kwargs :=
  (k, v) :: List.filter (fun p => p.1 ≠ k) kw

/-- The observable outcome of `ShowDetailMixin.get`: a normal render of the
located show, an HTTP redirect (carrying the canonical date token, the
kwargs of the target URL produced by `reverse`, the query string of the
target URL, and the show the redirect was computed from), or `Http404`. -/
inductive Response where
  | rendered (s : Show)
  | redirect (dateToken : Nat) (newKwargs : Kwargs) (targetQuery : Kwargs) (s : Show)
  | notFound
deriving DecidableEq, Repr

/-- `ShowDetailMixin.get`.  `raw` is the `date` kwarg (`none` when the URL
carries no date) together with the two `strptime` verdicts; `query` is
`request.GET`, which the handler never reads — the redirect target is built
by `reverse(name, kwargs=new_kwargs)` alone, so its query string is empty.
The render branch requires `not fell_back and self.date is not None and
self.object.showtime.date() == self.date.date()`; every other outcome with
a located object is a redirect to `self.object.showtime.date()` formatted
with `'%Y-%m-%d'`. -/
def getResp (shows : List Show) (now : Nat) (default_to_current : Bool)
    (raw : Option RawDate) (kwargs : Kwargs) (_query : Kwargs) : Response :=
  match raw with
  | none =>
    match _get_object shows now default_to_current none with
    | none => Response.notFound
    | some obj =>
      Response.redirect (dateOf obj.showtime)
        (setKw kwargs "date" (fmtDate (dateOf obj.showtime))) [] obj
  | some r =>
    let parsed : Option (Bool × Nat) :=
      match r.iso? with
      | some d => some (false, d)
      | none =>
        match r.legacy? with
        | some d => some (true, d)
        | none => none
    match parsed with
    | none => Response.notFound
    | some (fell_back, d) =>
      match _get_object shows now default_to_current (some (midnight d)) with
      | none => Response.notFound
      | some obj =>
        if fell_back = false ∧ dateOf obj.showtime = d then
          Response.rendered obj
        else
          Response.redirect (dateOf obj.showtime)
            (setKw kwargs "date" (fmtDate (dateOf obj.showtime))) [] obj

/-- `ArchiveList.get_queryset().latest('showtime')`: the row with the
greatest `showtime` (`none` translating `DoesNotExist` on an empty
queryset). -/
def latest (qs : List Show) : Option Show :=
  (List.insertionSort (fun a b => b.showtime ≤ a.showtime) qs).head?

/-- SQL `DISTINCT ON` over a rowset already ordered by the projected
column: collapse adjacent equal values. -/
def distinctAdj : List Nat → List Nat
  | [] => []
  | [a] => [a]
  | a :: b :: rest =>
    if a = b then distinctAdj (b :: rest) else a :: distinctAdj (b :: rest)

/-- `ArchiveList.get_years`.  `supportsDistinct` is whether the database
engine accepts `.distinct('showtime__year')` (the `try` branch); otherwise
(`NotSupportedError`, e.g. sqlite) the years are collected into a `set` and
sorted.  Both branches start from
`self.get_queryset().order_by('showtime__year')`. -/
def get_years (supportsDistinct : Bool) (qs : List Show) : List Nat :=
  let ordered := (List.insertionSort
    (fun a b => yearOf a.showtime ≤ yearOf b.showtime) qs).map
    (fun s => yearOf s.showtime)
  if supportsDistinct then
    distinctAdj ordered
  else
    List.insertionSort (fun a b : Nat => a ≤ b) ordered.dedup

/-- The failures `ArchiveList.year` can raise: `Show.DoesNotExist`
(propagated from `latest` on an empty queryset) or `Http404`, with its
optional message. -/
inductive YearError where
  | doesNotExist
  | http404 (msg : Option String)
deriving DecidableEq, Repr

/-- `ArchiveList.year`: `int(self.kwargs.get('year') or
self.get_queryset().latest('showtime').showtime.year)`, then a membership
check against `get_years` raising `Http404("We don\x27t have shows for that
year")`.  `qs` is the `get_queryset()` result both calls share. -/
def ArchiveList.year (supportsDistinct : Bool) (qs : List Show)
    (kwYear : Option Nat) : Except YearError Nat :=
  let y? : Except YearError Nat :=
    match kwYear with
    | some y => Except.ok y
    | none =>
      match latest qs with
      | some s => Except.ok (yearOf s.showtime)
      | none => Except.error YearError.doesNotExist
  match y? with
  | Except.error e => Except.error e
  | Except.ok y =>
    if y ∈ get_years supportsDistinct qs then Except.ok y
    else Except.error (YearError.http404 (some "We don\x27t have shows for that year"))

/-- `ArchiveList.get_queryset`: order by `-showtime` and, when
`exclude_current`, exclude the pk of `Show.current()` (modelled from the
spec, see `Show.current`; when no episode is current nothing is excluded). -/
def ArchiveList.get_queryset (shows : List Show) (now : Nat)
    (exclude_current : Bool) : List Show :=
  let qs := List.insertionSort (fun a b => b.showtime ≤ a.showtime) shows
  if exclude_current then
    match Show.current shows now with
    | some c => qs.filter (fun s => s.pk ≠ c.pk)
    | none => qs
  else qs

/-- Modelled from the spec: `memoize` lives in `nkdsu/apps/vote/utils.py`,
which is not part of the sources under verification.  Per the spec it
computes once per key per request-scoped cache: a hit returns the stored
value without invoking the producer.  The returned `Bool` records whether
the producer was invoked on this call. -/
def memoize {α : Type} (cache : List (String × α)) (key : String)
    (producer : Unit → α) : α × List (String × α) × Bool :=
  match cache.lookup key with
  | some v => (v, cache, false)
  | none =>
    let v := producer ()
    (v, (key, v) :: cache, true)

/-- One request's lifetime through `ShowDetailMixin`: `get` resolves the
object through the memoized `_get_object` (via `LetMemoizeGetObject`), then
`get_context_data` resolves it again for `context['show']`.  Returns the
object `get` decided on, the object placed in context, and whether the
second resolution re-ran the query. -/
def requestFlow (shows : List Show) (now : Nat) (default_to_current : Bool)
    (date : Option Nat) : Option Show × Option Show × Bool :=
  let producer := fun (_ : Unit) => _get_object shows now default_to_current date
  let r1 := memoize [] "_get_object" producer
  let r2 := memoize r1.2.1 "_get_object" producer
  (r1.1, r2.1, r2.2.2)

/-- The spec's claim that a request with no date token always proceeds to a
normal render (never a redirect), stated for refutation. -/
def C1_claim : Prop :=
  ∀ (shows : List Show) (now : Nat) (dtc : Bool) (kwargs query : Kwargs)
    (d' : Nat) (kw' q' : Kwargs) (s : Show),
    getResp shows now dtc none kwargs query ≠ Response.redirect d' kw' q' s

/-- The spec's claim that whenever some episode has its showtime on
ISO-requested calendar date `d`, locating on `d` returns that episode and
the request proceeds without redirect, stated for refutation. -/
def C3_claim : Prop :=
  ∀ (shows : List Show) (now : Nat) (dtc : Bool) (d : Nat) (e : Show)
    (kwargs query : Kwargs) (legacy : Option Nat),
    e ∈ shows → dateOf e.showtime = d →
    getResp shows now dtc (some ⟨some d, legacy⟩) kwargs query =
      Response.rendered e

/-- The spec's claim that every non-canonical request (legacy format, or a
date differing from the located showtime date) redirects to the located
episode's canonical date, and that the redirect target, re-requested,
renders the same episode — stated for refutation. -/
def C5_claim : Prop :=
  ∀ (shows : List Show) (now : Nat) (dtc : Bool) (r : RawDate)
    (fell_back : Bool) (d : Nat) (obj : Show) (kwargs query : Kwargs),
    ((r.iso? = some d ∧ fell_back = false) ∨
      (r.iso? = none ∧ r.legacy? = some d ∧ fell_back = true)) →
    _get_object shows now dtc (some (midnight d)) = some obj →
    (fell_back = true ∨ dateOf obj.showtime ≠ d) →
    getResp shows now dtc (some r) kwargs query =
      Response.redirect (dateOf obj.showtime)
        (setKw kwargs "date" (fmtDate (dateOf obj.showtime))) [] obj
    ∧ getResp shows now dtc (some ⟨some (dateOf obj.showtime), none⟩)
        kwargs query = Response.rendered obj

/-- The spec's claim that a redirect target differs from the request only
in the date path component, preserving every other path and query
component — stated for refutation. -/
def C9_claim : Prop :=
  ∀ (shows : List Show) (now : Nat) (dtc : Bool) (raw : Option RawDate)
    (kwargs query : Kwargs) (d' : Nat) (kw' q' : Kwargs) (s : Show),
    getResp shows now dtc raw kwargs query = Response.redirect d' kw' q' s →
    (∀ k, k ≠ "date" → kw'.lookup k = kwargs.lookup k) ∧ q' = query

/-! ### Generic facts about `order_by(...)` followed by row `[0]` -/

theorem sort_head?_spec {α : Type} (r : α → α → Prop) [DecidableRel r]
    (htrans : ∀ a b c : α, r a b → r b c → r a c)
    (htotal : ∀ a b : α, r a b ∨ r b a)
    (l : List α) (x : α) (h : (List.insertionSort r l).head? = some x) :
    x ∈ l ∧ ∀ y ∈ l, r x y := by
  haveI : IsTotal α r := ⟨htotal⟩
  haveI : IsTrans α r := ⟨htrans⟩
  have hperm := List.perm_insertionSort r l
  have hsorted := List.sorted_insertionSort r l
  cases hms : List.insertionSort r l with
  | nil => rw [hms] at h; cases h
  | cons a t =>
    rw [hms] at h hperm hsorted
    rw [List.head?_cons] at h
    cases h
    constructor
    · exact hperm.mem_iff.mp (List.mem_cons_self x t)
    · intro y hy
      rcases List.mem_cons.mp (hperm.mem_iff.mpr hy) with h' | h'
      · rw [h']
        rcases htotal x x with h'' | h'' <;> exact h''
      · exact (List.sorted_cons.mp hsorted).1 y h'

theorem sort_head?_none {α : Type} (r : α → α → Prop) [DecidableRel r]
    (l : List α) : (List.insertionSort r l).head? = none ↔ l = [] := by
  rw [List.head?_eq_none_iff]
  constructor
  · intro h
    exact ((h ▸ List.perm_insertionSort r l).symm).eq_nil
  · intro h
    subst h
    exact (List.perm_insertionSort r ([] : List α)).eq_nil

theorem sort_head?_eq {α : Type} (r : α → α → Prop) [DecidableRel r]
    (htrans : ∀ a b c : α, r a b → r b c → r a c)
    (htotal : ∀ a b : α, r a b ∨ r b a)
    (l : List α) (x : α)
    (hdist : l.Pairwise (fun a b => ¬(r a b ∧ r b a)))
    (hx : x ∈ l) (hmin : ∀ y ∈ l, r x y) :
    (List.insertionSort r l).head? = some x := by
  cases hms : (List.insertionSort r l).head? with
  | none =>
    rw [sort_head?_none] at hms
    subst hms
    cases hx
  | some h =>
    obtain ⟨hmem, hall⟩ := sort_head?_spec r htrans htotal l h hms
    by_cases hxh : h = x
    · rw [hxh]
    · have hsym : Symmetric (fun a b : α => ¬(r a b ∧ r b a)) := by
        intro a b hab hcontra
        exact hab ⟨hcontra.2, hcontra.1⟩
      have := hdist.forall hsym hmem hx hxh
      exact absurd ⟨hall x hx, hmin h hmem⟩ this

/-! ### Facts about SQL `DISTINCT ON` over an ordered rowset -/

theorem mem_distinctAdj (l : List Nat) (x : Nat) :
    x ∈ distinctAdj l ↔ x ∈ l := by
  induction l with
  | nil => simp [distinctAdj]
  | cons a rest ih =>
    cases rest with
    | nil => simp [distinctAdj]
    | cons b rest' =>
      by_cases hab : a = b
      · subst hab
        rw [show distinctAdj (a :: a :: rest') = distinctAdj (a :: rest') by
          simp [distinctAdj]]
        rw [ih]
        simp only [List.mem_cons]
        tauto
      · rw [show distinctAdj (a :: b :: rest') = a :: distinctAdj (b :: rest') by
          simp [distinctAdj, hab]]
        rw [List.mem_cons, ih]
        simp [List.mem_cons]

theorem distinctAdj_sorted_lt (l : List Nat) (h : l.Pairwise (· ≤ ·)) :
    (distinctAdj l).Pairwise (· < ·) := by
  induction l with
  | nil => simp [distinctAdj]
  | cons a rest ih =>
    cases rest with
    | nil => simp [distinctAdj]
    | cons b rest' =>
      have htail : (b :: rest').Pairwise (· ≤ ·) := (List.pairwise_cons.mp h).2
      have hhead : ∀ y ∈ b :: rest', a ≤ y := (List.pairwise_cons.mp h).1
      by_cases hab : a = b
      · subst hab
        rw [show distinctAdj (a :: a :: rest') = distinctAdj (a :: rest') by
          simp [distinctAdj]]
        exact ih htail
      · rw [show distinctAdj (a :: b :: rest') = a :: distinctAdj (b :: rest') by
          simp [distinctAdj, hab]]
        rw [List.pairwise_cons]
        refine ⟨?_, ih htail⟩
        intro y hy
        have hby : b ≤ y := by
          rcases List.mem_cons.mp ((mem_distinctAdj _ _).mp hy) with h2 | h2
          · exact h2 ▸ le_refl b
          · exact (List.pairwise_cons.mp htail).1 y h2
        have hb : a < b := lt_of_le_of_ne (hhead b (List.mem_cons_self b rest')) hab
        exact lt_of_lt_of_le hb hby

/-! ### Comparator facts for the concrete `order_by` keys -/

theorem keyAsc_trans {α : Type} (key : α → Nat) :
    ∀ a b c : α, key a ≤ key b → key b ≤ key c → key a ≤ key c :=
  fun _ _ _ hab hbc => le_trans hab hbc

theorem keyAsc_total {α : Type} (key : α → Nat) :
    ∀ a b : α, key a ≤ key b ∨ key b ≤ key a :=
  fun _ _ => Nat.le_total _ _

theorem keyDesc_trans {α : Type} (key : α → Nat) :
    ∀ a b c : α, key b ≤ key a → key c ≤ key b → key c ≤ key a :=
  fun _ _ _ hab hbc => le_trans hbc hab

theorem keyDesc_total {α : Type} (key : α → Nat) :
    ∀ a b : α, key b ≤ key a ∨ key a ≤ key b :=
  fun _ _ => Nat.le_total _ _

/-! ### Characterizations of the episode locator -/

theorem _get_object_date_mem (shows : List Show) (now : Nat) (dtc : Bool)
    (d : Nat) (s : Show) (h : _get_object shows now dtc (some d) = some s) :
    s ∈ shows ∧ d < s.showtime ∧
      ∀ t ∈ shows, d < t.showtime → s.showtime ≤ t.showtime := by
  unfold _get_object at h
  obtain ⟨hmem, hall⟩ := sort_head?_spec _ (keyAsc_trans Show.showtime)
    (keyAsc_total Show.showtime) _ s h
  rw [List.mem_filter] at hmem
  refine ⟨hmem.1, by simpa using hmem.2, ?_⟩
  intro t ht hdt
  have htf : t ∈ shows.filter (fun s => decide (d < s.showtime)) := by
    rw [List.mem_filter]
    exact ⟨ht, by simpa using hdt⟩
  exact hall t htf

theorem _get_object_date_none (shows : List Show) (now : Nat) (dtc : Bool)
    (d : Nat) :
    _get_object shows now dtc (some d) = none ↔
      ∀ t ∈ shows, ¬ d < t.showtime := by
  unfold _get_object
  rw [sort_head?_none, List.filter_eq_nil_iff]
  simp

theorem _get_object_date_eq (shows : List Show) (now : Nat) (dtc : Bool)
    (d : Nat) (e : Show)
    (hdist : shows.Pairwise (fun a b => a.showtime ≠ b.showtime))
    (he : e ∈ shows) (hgt : d < e.showtime)
    (hmin : ∀ t ∈ shows, d < t.showtime → e.showtime ≤ t.showtime) :
    _get_object shows now dtc (some d) = some e := by
  unfold _get_object
  apply sort_head?_eq _ (keyAsc_trans Show.showtime) (keyAsc_total Show.showtime)
  · refine (hdist.filter _).imp ?_
    intro a b hab hcontra
    exact hab (le_antisymm hcontra.1 hcontra.2)
  · rw [List.mem_filter]
    exact ⟨he, by simpa using hgt⟩
  · intro y hy
    rw [List.mem_filter] at hy
    exact hmin y hy.1 (by simpa using hy.2)

theorem _get_object_completed_mem (shows : List Show) (now : Nat) (s : Show)
    (h : _get_object shows now false none = some s) :
    s ∈ shows ∧ s.end_ < now ∧ ∀ t ∈ shows, t.end_ < now → t.end_ ≤ s.end_ := by
  unfold _get_object at h
  simp only [Bool.false_eq_true, if_false] at h
  obtain ⟨hmem, hall⟩ := sort_head?_spec _ (keyDesc_trans Show.end_)
    (keyDesc_total Show.end_) _ s h
  rw [List.mem_filter] at hmem
  refine ⟨hmem.1, by simpa using hmem.2, ?_⟩
  intro t ht hdt
  have htf : t ∈ shows.filter (fun s => decide (s.end_ < now)) := by
    rw [List.mem_filter]
    exact ⟨ht, by simpa using hdt⟩
  exact hall t htf

theorem _get_object_completed_none (shows : List Show) (now : Nat) :
    _get_object shows now false none = none ↔ ∀ t ∈ shows, ¬ t.end_ < now := by
  unfold _get_object
  simp only [Bool.false_eq_true, if_false]
  rw [sort_head?_none, List.filter_eq_nil_iff]
  simp

theorem latest_mem (qs : List Show) (s : Show) (h : latest qs = some s) :
    s ∈ qs ∧ ∀ t ∈ qs, t.showtime ≤ s.showtime := by
  unfold latest at h
  obtain ⟨hmem, hall⟩ := sort_head?_spec _ (keyDesc_trans Show.showtime)
    (keyDesc_total Show.showtime) _ s h
  exact ⟨hmem, fun t ht => hall t ht⟩

theorem latest_none (qs : List Show) : latest qs = none ↔ qs = [] := by
  unfold latest
  exact sort_head?_none _ _

theorem at_of_no_in_progress (shows : List Show) (now : Nat)
    (h : ∀ t ∈ shows, ¬(t.showtime ≤ now ∧ now < t.end_)) :
    Show.at_ shows now = _get_object shows now false none := by
  unfold Show.at_ _get_object
  rw [List.find?_eq_none.mpr]
  · simp
  · intro x hx
    simp only [Bool.and_eq_true, decide_eq_true_eq]
    intro hcontra
    exact h x hx hcontra

/-! ### Facts about the year index -/

theorem get_years_sorted_ascending (qs : List Show) :
    (get_years true qs).Pairwise (· < ·) := by
  unfold get_years
  simp only [if_true]
  apply distinctAdj_sorted_lt
  rw [List.pairwise_map]
  haveI : IsTotal Show (fun a b => yearOf a.showtime ≤ yearOf b.showtime) :=
    ⟨keyAsc_total (fun s : Show => yearOf s.showtime)⟩
  haveI : IsTrans Show (fun a b => yearOf a.showtime ≤ yearOf b.showtime) :=
    ⟨keyAsc_trans (fun s : Show => yearOf s.showtime)⟩
  exact List.sorted_insertionSort _ qs

theorem mem_get_years_true (qs : List Show) (y : Nat) :
    y ∈ get_years true qs ↔ ∃ s ∈ qs, yearOf s.showtime = y := by
  unfold get_years
  simp only [if_true]
  rw [mem_distinctAdj, List.mem_map]
  constructor
  · rintro ⟨s, hs, rfl⟩
    exact ⟨s, (List.perm_insertionSort _ qs).mem_iff.mp hs, rfl⟩
  · rintro ⟨s, hs, rfl⟩
    exact ⟨s, (List.perm_insertionSort _ qs).mem_iff.mpr hs, rfl⟩

theorem get_years_paths_agree (qs : List Show) :
    get_years true qs = get_years false qs := by
  have hnat_sorted := get_years_sorted_ascending qs
  have hnat_nodup : (get_years true qs).Nodup :=
    hnat_sorted.imp (fun h => Nat.ne_of_lt h)
  have hfb_perm := List.perm_insertionSort (fun a b : Nat => a ≤ b)
    (((List.insertionSort (fun a b => yearOf a.showtime ≤ yearOf b.showtime) qs).map
      (fun s => yearOf s.showtime)).dedup)
  have hfb_sorted : (get_years false qs).Pairwise (· ≤ ·) := by
    unfold get_years
    simp only [Bool.false_eq_true, if_false]
    haveI : IsTotal Nat (fun a b : Nat => a ≤ b) := ⟨keyAsc_total id⟩
    haveI : IsTrans Nat (fun a b : Nat => a ≤ b) := ⟨keyAsc_trans id⟩
    exact List.sorted_insertionSort _ _
  have hfb_nodup : (get_years false qs).Nodup := by
    unfold get_years
    simp only [Bool.false_eq_true, if_false]
    exact hfb_perm.nodup_iff.mpr (List.nodup_dedup _)
  have hfb_mem : ∀ y, y ∈ get_years false qs ↔ ∃ s ∈ qs, yearOf s.showtime = y := by
    intro y
    unfold get_years
    simp only [Bool.false_eq_true, if_false]
    rw [hfb_perm.mem_iff, List.mem_dedup, List.mem_map]
    constructor
    · rintro ⟨s, hs, rfl⟩
      exact ⟨s, (List.perm_insertionSort _ qs).mem_iff.mp hs, rfl⟩
    · rintro ⟨s, hs, rfl⟩
      exact ⟨s, (List.perm_insertionSort _ qs).mem_iff.mpr hs, rfl⟩
  have hperm : (get_years true qs).Perm (get_years false qs) :=
    (List.perm_ext_iff_of_nodup hnat_nodup hfb_nodup).mpr
      (fun y => (mem_get_years_true qs y).trans (hfb_mem y).symm)
  exact List.eq_of_perm_of_sorted hperm
    (hnat_sorted.imp (fun h => le_of_lt h)) hfb_sorted

theorem mem_get_years (sd : Bool) (qs : List Show) (y : Nat) :
    y ∈ get_years sd qs ↔ ∃ s ∈ qs, yearOf s.showtime = y := by
  cases sd
  · rw [← get_years_paths_agree]
    exact mem_get_years_true qs y
  · exact mem_get_years_true qs y

theorem year_default_spec (sd : Bool) (qs : List Show) (h : qs ≠ []) :
    ∃ s, latest qs = some s ∧
      ArchiveList.year sd qs none = Except.ok (yearOf s.showtime) ∧
      yearOf s.showtime ∈ get_years sd qs ∧
      ∀ z ∈ get_years sd qs, z ≤ yearOf s.showtime := by
  cases hl : latest qs with
  | none => exact absurd ((latest_none qs).mp hl) h
  | some s =>
    obtain ⟨hmem, hmax⟩ := latest_mem qs s hl
    have hin : yearOf s.showtime ∈ get_years sd qs :=
      (mem_get_years sd qs _).mpr ⟨s, hmem, rfl⟩
    refine ⟨s, rfl, ?_, hin, ?_⟩
    · unfold ArchiveList.year
      rw [hl]
      simp only [if_pos hin]
    · intro z hz
      obtain ⟨t, ht, rfl⟩ := (mem_get_years sd qs z).mp hz
      exact Nat.div_le_div_right (hmax t ht)

/-! ### Claim theorems -/

/-- C2: under `ThisShowDetailMixin` with no date token, the episode whose
`[showtime, end)` interval contains "now" (unique, episodes being
non-overlapping) is returned; with none in progress the locator falls back
to the most-recently-completed rule — the same greatest-`end`-strictly-
before-now selection `ShowDetailMixin` uses — and yields `Http404` (`none`)
exactly when no completed episode exists either.  (`Show.at` is modelled
from the spec, `models.py` being outside the verified sources.) -/
theorem C2_in_progress_or_most_recent (shows : List Show) (now : Nat) :
    (∀ s ∈ shows, s.showtime ≤ now → now < s.end_ →
      (∀ t ∈ shows, t.showtime ≤ now → now < t.end_ → t = s) →
      ThisShowDetailMixin.get_object shows now none = some s)
    ∧ ((∀ t ∈ shows, ¬(t.showtime ≤ now ∧ now < t.end_)) →
        ThisShowDetailMixin.get_object shows now none =
          _get_object shows now false none
        ∧ (∀ s, ThisShowDetailMixin.get_object shows now none = some s →
            s ∈ shows ∧ s.end_ < now ∧
              ∀ t ∈ shows, t.end_ < now → t.end_ ≤ s.end_)
        ∧ (ThisShowDetailMixin.get_object shows now none = none ↔
            ∀ t ∈ shows, ¬ t.end_ < now)) := by
  constructor
  · intro s hs hst hse huniq
    show Show.at_ shows now = some s
    unfold Show.at_
    cases hf : shows.find? (fun t => t.showtime ≤ now && now < t.end_) with
    | none =>
      have := List.find?_eq_none.mp hf s hs
      simp only [Bool.and_eq_true, decide_eq_true_eq] at this
      exact absurd ⟨hst, hse⟩ this
    | some x =>
      have hx := List.find?_some hf
      simp only [Bool.and_eq_true, decide_eq_true_eq] at hx
      have hmem := List.mem_of_find?_eq_some hf
      exact congrArg some (huniq x hmem hx.1 hx.2)
  · intro hno
    have heq : ThisShowDetailMixin.get_object shows now none =
        _get_object shows now false none :=
      at_of_no_in_progress shows now hno
    refine ⟨heq, ?_, ?_⟩
    · intro s h
      exact _get_object_completed_mem shows now s (heq ▸ h)
    · rw [heq]
      exact _get_object_completed_none shows now

/-- Witness for C2 at concrete data: one episode, in progress at `now`. -/
theorem C2_witness :
    ThisShowDetailMixin.get_object [⟨0, 100, 200⟩] 150 none =
      some ⟨0, 100, 200⟩ :=
  (C2_in_progress_or_most_recent [⟨0, 100, 200⟩] 150).1 ⟨0, 100, 200⟩
    (List.mem_cons_self _ _) (by decide) (by decide)
    (by intro t ht _ _; simpa using ht)

/-- C4: with a date token present, the locator returns an episode of
minimal `showtime` strictly greater than midnight of the requested
calendar date, and fails (`Http404`) exactly when no episode has
`showtime` strictly after that instant; in that case the whole `get`
pipeline answers not-found. -/
theorem C4_locator_forward (shows : List Show) (now : Nat) (dtc : Bool)
    (d : Nat) (kwargs query : Kwargs) :
    (∀ s, _get_object shows now dtc (some (midnight d)) = some s →
      s ∈ shows ∧ midnight d < s.showtime ∧
        ∀ t ∈ shows, midnight d < t.showtime → s.showtime ≤ t.showtime)
    ∧ (_get_object shows now dtc (some (midnight d)) = none ↔
        ∀ t ∈ shows, ¬ midnight d < t.showtime)
    ∧ ((∀ t ∈ shows, ¬ midnight d < t.showtime) → ∀ legacy,
        getResp shows now dtc (some ⟨some d, legacy⟩) kwargs query =
          Response.notFound) := by
  refine ⟨fun s h => _get_object_date_mem shows now dtc (midnight d) s h,
    _get_object_date_none shows now dtc (midnight d), ?_⟩
  intro h legacy
  have hn := (_get_object_date_none shows now dtc (midnight d)).mpr h
  simp [getResp, hn]

/-- Witness for C4 at concrete data. -/
theorem C4_witness :
    (⟨0, 2000, 2100⟩ : Show) ∈ [(⟨0, 2000, 2100⟩ : Show)]
    ∧ midnight 1 < (2000 : Nat) :=
  have h := (C4_locator_forward [⟨0, 2000, 2100⟩] 0 false 1 [] []).1
    ⟨0, 2000, 2100⟩ (by decide)
  ⟨h.1, h.2.1⟩

/-- C6: the native `DISTINCT ON` path and the set-then-sort fallback path
of `ArchiveList.get_years` agree on every queryset, and the common result
is strictly ascending, duplicate-free, containing exactly the years in
which some episode of the queryset has its showtime. -/
theorem C6_get_years_equivalence (qs : List Show) :
    get_years true qs = get_years false qs
    ∧ (get_years true qs).Pairwise (· < ·)
    ∧ ∀ y, y ∈ get_years true qs ↔ ∃ s ∈ qs, yearOf s.showtime = y :=
  ⟨get_years_paths_agree qs, get_years_sorted_ascending qs,
    mem_get_years_true qs⟩

/-- Witness for C6 at concrete data (two episodes in different years). -/
theorem C6_witness :
    get_years true [⟨0, 600000, 600100⟩, ⟨1, 100, 200⟩] =
      get_years false [⟨0, 600000, 600100⟩, ⟨1, 100, 200⟩] :=
  (C6_get_years_equivalence [⟨0, 600000, 600100⟩, ⟨1, 100, 200⟩]).1

/-- C7: with no year requested, `ArchiveList.year` resolves to the year of
the episode with the greatest showtime, which is the greatest member of the
year index (so no 404 arises); an explicitly requested year absent from the
index fails with the specific "no shows for that year" message. -/
theorem C7_year_resolution (sd : Bool) (qs : List Show) :
    (qs ≠ [] → ∃ s, latest qs = some s ∧
      ArchiveList.year sd qs none = Except.ok (yearOf s.showtime) ∧
      yearOf s.showtime ∈ get_years sd qs ∧
      ∀ z ∈ get_years sd qs, z ≤ yearOf s.showtime)
    ∧ ∀ y, y ∉ get_years sd qs →
        ArchiveList.year sd qs (some y) =
          Except.error (YearError.http404
            (some "We don\x27t have shows for that year")) := by
  constructor
  · exact year_default_spec sd qs
  · intro y hy
    unfold ArchiveList.year
    simp only [if_neg hy]

/-- Witness for C7 at concrete data. -/
theorem C7_witness :
    ArchiveList.year true [⟨0, 100, 200⟩] none = Except.ok (yearOf 100)
    ∧ ArchiveList.year true [⟨0, 100, 200⟩] (some 7) =
        Except.error (YearError.http404
          (some "We don\x27t have shows for that year")) := by
  constructor
  · obtain ⟨s, hl, hok, -, -⟩ :=
      (C7_year_resolution true [⟨0, 100, 200⟩]).1 (by simp)
    have hs : s = ⟨0, 100, 200⟩ := by
      have := (latest_mem _ _ hl).1
      simpa using this
    rw [hs] at hok
    exact hok
  · exact (C7_year_resolution true [⟨0, 100, 200⟩]).2 7 (by decide)

/-- C8: the request-scoped memoization computes the producer at most once
per key — a second call with the same key returns the stored value and an
unchanged cache without invoking the producer — so within one request the
episode `get` decides on and the episode `get_context_data` places into the
render context are the same, with no second store query.  (`memoize` is
modelled from the spec, `utils.py` being outside the verified sources.) -/
theorem C8_memoized_resolution :
    (∀ (α : Type) (c : List (String × α)) (k : String) (p q : Unit → α),
      memoize ((memoize c k p).2.1) k q =
        ((memoize c k p).1, (memoize c k p).2.1, false))
    ∧ ∀ (shows : List Show) (now : Nat) (dtc : Bool) (date : Option Nat),
        (requestFlow shows now dtc date).1 =
          (requestFlow shows now dtc date).2.1
        ∧ (requestFlow shows now dtc date).2.2 = false := by
  have hgen : ∀ (α : Type) (c : List (String × α)) (k : String)
      (p q : Unit → α),
      memoize ((memoize c k p).2.1) k q =
        ((memoize c k p).1, (memoize c k p).2.1, false) := by
    intro α c k p q
    cases h : c.lookup k with
    | some v => simp [memoize, h]
    | none => simp [memoize, h, List.lookup]
  refine ⟨hgen, ?_⟩
  intro shows now dtc date
  have h := hgen (Option Show) [] "_get_object"
    (fun _ => _get_object shows now dtc date)
    (fun _ => _get_object shows now dtc date)
  constructor
  · simp [requestFlow, h]
  · simp [requestFlow, h]

/-- Witness for C8 at concrete data. -/
theorem C8_witness :
    (requestFlow [⟨0, 2000, 2100⟩] 3000 false none).1 =
      (requestFlow [⟨0, 2000, 2100⟩] 3000 false none).2.1
    ∧ (requestFlow [⟨0, 2000, 2100⟩] 3000 false none).2.2 = false :=
  C8_memoized_resolution.2 [⟨0, 2000, 2100⟩] 3000 false none

/-- C10: whenever the archive queryset (with the current episode excluded
when `exclude_current` is set) is non-empty and no year is requested,
`ArchiveList.year` succeeds — the year of the greatest-showtime episode is
always a member of `get_years` over the same queryset, so the 404 branch
is unreachable in the no-year case. -/
theorem C10_default_year_never_404 (sd : Bool) (shows : List Show)
    (now : Nat) (exclude_current : Bool)
    (h : ArchiveList.get_queryset shows now exclude_current ≠ []) :
    ∃ y, ArchiveList.year sd
        (ArchiveList.get_queryset shows now exclude_current) none =
        Except.ok y
      ∧ y ∈ get_years sd (ArchiveList.get_queryset shows now exclude_current) := by
  obtain ⟨s, -, hok, hin, -⟩ := year_default_spec sd _ h
  exact ⟨yearOf s.showtime, hok, hin⟩

/-- Witness for C10 at concrete data: two episodes, the later one current
and excluded, queryset still non-empty. -/
theorem C10_witness :
    ArchiveList.year true
      (ArchiveList.get_queryset [⟨0, 100, 200⟩, ⟨1, 300, 400⟩] 500 true)
      none = Except.ok 0 := by
  obtain ⟨y, hok, -⟩ := C10_default_year_never_404 true
    [⟨0, 100, 200⟩, ⟨1, 300, 400⟩] 500 true (by decide)
  have h1 : (Except.ok y : Except YearError Nat) = Except.ok 0 :=
    hok.symm.trans rfl
  injection h1 with hy
  rw [hy] at hok
  exact hok

/-- The spec asserts a no-date request proceeds to a normal render; the
code instead takes the redirect branch whenever `self.date is None`, since
the render condition requires `self.date is not None`.  Concretely: one
completed episode, no date token — the response is a redirect to the
episode's canonical date. -/
theorem C1_counterexample : ¬ C1_claim := by
  intro h
  exact h [⟨0, 2000, 2100⟩] 3000 false [] [] 1
    (setKw [] "date" (fmtDate 1)) [] ⟨0, 2000, 2100⟩ (by decide)

/-- C1 (amended): a request with no date token is answered with a redirect
to the located episode's canonical date (not a direct render); the decision
is a render exactly when a date token was supplied, parsed with the
canonical format, and equal to the calendar date of the located episode's
showtime. -/
theorem C1_amended_decision (shows : List Show) (now : Nat) (dtc : Bool)
    (kwargs query : Kwargs) :
    (∀ obj, _get_object shows now dtc none = some obj →
      getResp shows now dtc none kwargs query =
        Response.redirect (dateOf obj.showtime)
          (setKw kwargs "date" (fmtDate (dateOf obj.showtime))) [] obj)
    ∧ ∀ (raw : Option RawDate) (obj : Show),
        getResp shows now dtc raw kwargs query = Response.rendered obj ↔
          ∃ r d, raw = some r ∧ r.iso? = some d ∧
            _get_object shows now dtc (some (midnight d)) = some obj ∧
            dateOf obj.showtime = d := by
  constructor
  · intro obj h
    simp [getResp, h]
  · intro raw obj
    constructor
    · intro h
      match raw with
      | none =>
        cases hg : _get_object shows now dtc none <;>
          simp [getResp, hg] at h
      | some r =>
        match hiso : r.iso? with
        | some d =>
          cases hg : _get_object shows now dtc (some (midnight d)) with
          | none => simp [getResp, hiso, hg] at h
          | some o =>
            by_cases hd : dateOf o.showtime = d
            · have hoe : o = obj := by
                simp [getResp, hiso, hg, hd] at h
                exact h
              subst hoe
              exact ⟨r, d, rfl, hiso, hg, hd⟩
            · simp [getResp, hiso, hg, hd] at h
        | none =>
          match hleg : r.legacy? with
          | some d =>
            cases hg : _get_object shows now dtc (some (midnight d)) with
            | none => simp [getResp, hiso, hleg, hg] at h
            | some o => simp [getResp, hiso, hleg, hg] at h
          | none => simp [getResp, hiso, hleg] at h
    · rintro ⟨r, d, rfl, hiso, hg, hd⟩
      simp [getResp, hiso, hg, hd]

/-- Witness for the amended C1 at concrete data. -/
theorem C1_witness :
    getResp [⟨0, 2000, 2100⟩] 3000 false none [] [] =
      Response.redirect (dateOf 2000)
        (setKw [] "date" (fmtDate (dateOf 2000))) [] ⟨0, 2000, 2100⟩ :=
  (C1_amended_decision [⟨0, 2000, 2100⟩] 3000 false [] []).1
    ⟨0, 2000, 2100⟩ (by decide)

/-- The spec asserts that an episode with showtime on requested ISO date
`d` is located and rendered; but the locator filters
`showtime__gt=midnight(d)` strictly, so an episode starting exactly at
midnight of `d` is skipped.  Concretely: the only episode starts exactly at
midnight of day 1; requesting day 1 yields `Http404`, not a render of that
episode. -/
theorem C3_counterexample : ¬ C3_claim := by
  intro h
  have := h [⟨0, 1440, 1500⟩] 9999 false 1 ⟨0, 1440, 1500⟩ [] [] none
    (List.mem_cons_self _ _) (by decide)
  exact absurd this (by decide)

/-- C3 (amended): for an ISO-requested date `d`, if episode `e` has its
showtime on calendar date `d` *strictly after* midnight of `d`, and `e` is
the earliest episode with showtime after that midnight (episode showtimes
being pairwise distinct, per the data model), then the request locates `e`
and proceeds to a normal render with no redirect. -/
theorem C3_amended_iso_resolution (shows : List Show) (now : Nat)
    (dtc : Bool) (d : Nat) (e : Show) (kwargs query : Kwargs)
    (legacy : Option Nat)
    (hdist : shows.Pairwise (fun a b => a.showtime ≠ b.showtime))
    (he : e ∈ shows) (hdate : dateOf e.showtime = d)
    (hmid : midnight d < e.showtime)
    (hmin : ∀ t ∈ shows, midnight d < t.showtime → e.showtime ≤ t.showtime) :
    getResp shows now dtc (some ⟨some d, legacy⟩) kwargs query =
      Response.rendered e := by
  have hg := _get_object_date_eq shows now dtc (midnight d) e hdist he hmid hmin
  simp [getResp, hg, hdate]

/-- Witness for the amended C3 at concrete data. -/
theorem C3_witness :
    getResp [⟨0, 1500, 1600⟩] 9999 false (some ⟨some 1, none⟩) [] [] =
      Response.rendered ⟨0, 1500, 1600⟩ :=
  C3_amended_iso_resolution [⟨0, 1500, 1600⟩] 9999 false 1 ⟨0, 1500, 1600⟩
    [] [] none (by simp) (List.mem_cons_self _ _) (by decide) (by decide)
    (by intro t ht _; simp at ht; subst ht; exact le_refl _)

/-- The spec asserts every redirect target resolves, on re-request, to the
same episode with a normal render; but when the located episode's showtime
is exactly midnight of its own calendar date, re-requesting that canonical
date filters `showtime__gt=midnight` strictly and misses the episode.
Concretely: the only episode starts exactly at midnight of day 2;
requesting day 1 redirects to day 2, and requesting day 2 yields
`Http404`. -/
theorem C5_counterexample : ¬ C5_claim := by
  intro h
  have := h [⟨0, 2880, 2900⟩] 9999 false ⟨some 1, none⟩ false 1
    ⟨0, 2880, 2900⟩ [] [] (Or.inl ⟨rfl, rfl⟩) (by decide)
    (Or.inr (by decide))
  exact absurd this.2 (by decide)

/-- C5 (amended): whenever a date token is present and either it was parsed
via the legacy fallback format or the located episode's showtime date
differs from the requested date, the response is a redirect whose date
token is the located episode's showtime date in canonical format; and
provided that showtime is not exactly midnight of its own calendar date
(episode showtimes being pairwise distinct, per the data model), the
redirect target re-resolves to the same episode with a normal render. -/
theorem C5_amended_redirect_canonical (shows : List Show) (now : Nat)
    (dtc : Bool) (r : RawDate) (fell_back : Bool) (d : Nat) (obj : Show)
    (kwargs query : Kwargs)
    (hdist : shows.Pairwise (fun a b => a.showtime ≠ b.showtime))
    (hparse : (r.iso? = some d ∧ fell_back = false) ∨
      (r.iso? = none ∧ r.legacy? = some d ∧ fell_back = true))
    (hloc : _get_object shows now dtc (some (midnight d)) = some obj)
    (hnoncanon : fell_back = true ∨ dateOf obj.showtime ≠ d)
    (hmid : midnight (dateOf obj.showtime) < obj.showtime) :
    getResp shows now dtc (some r) kwargs query =
      Response.redirect (dateOf obj.showtime)
        (setKw kwargs "date" (fmtDate (dateOf obj.showtime))) [] obj
    ∧ getResp shows now dtc (some ⟨some (dateOf obj.showtime), none⟩)
        kwargs query = Response.rendered obj := by
  obtain ⟨hobjmem, hobjgt, hobjmin⟩ :=
    _get_object_date_mem shows now dtc (midnight d) obj hloc
  constructor
  · rcases hparse with ⟨hiso, hfb⟩ | ⟨hiso, hleg, hfb⟩
    · subst hfb
      rcases hnoncanon with hfb | hd
      · cases hfb
      · simp [getResp, hiso, hloc, hd]
    · subst hfb
      simp [getResp, hiso, hleg, hloc]
  · have hdd : midnight d ≤ midnight (dateOf obj.showtime) := by
      unfold midnight dateOf
      have hd2 : d ≤ obj.showtime / minutesPerDay := by
        rw [Nat.le_div_iff_mul_le (by norm_num [minutesPerDay])]
        exact le_of_lt hobjgt
      exact Nat.mul_le_mul_right _ hd2
    have hre : _get_object shows now dtc
        (some (midnight (dateOf obj.showtime))) = some obj := by
      apply _get_object_date_eq shows now dtc _ obj hdist hobjmem hmid
      intro t ht hgt
      exact hobjmin t ht (lt_of_le_of_lt hdd hgt)
    simp [getResp, hre]

/-- Witness for the amended C5 at concrete data: a legacy-format request
redirects to canonical form, which re-resolves to the same episode. -/
theorem C5_witness :
    getResp [⟨0, 1500, 1600⟩] 9999 false (some ⟨none, some 1⟩) [] [] =
      Response.redirect (dateOf 1500)
        (setKw [] "date" (fmtDate (dateOf 1500))) [] ⟨0, 1500, 1600⟩
    ∧ getResp [⟨0, 1500, 1600⟩] 9999 false
        (some ⟨some (dateOf 1500), none⟩) [] [] =
        Response.rendered ⟨0, 1500, 1600⟩ :=
  C5_amended_redirect_canonical [⟨0, 1500, 1600⟩] 9999 false ⟨none, some 1⟩
    true 1 ⟨0, 1500, 1600⟩ [] [] (by simp)
    (Or.inr ⟨rfl, rfl, rfl⟩) (by decide) (Or.inl rfl) (by decide)

/-! ### Frame facts about the redirect target URL -/

theorem lookup_filter_ne (kw : Kwargs) (k k' : String) (h : k' ≠ k) :
    (List.filter (fun p => p.1 ≠ k) kw).lookup k' = kw.lookup k' := by
  induction kw with
  | nil => rfl
  | cons p rest ih =>
    obtain ⟨a, b⟩ := p
    by_cases hak : a = k
    · subst hak
      have hk'a : (k' == a) = false := beq_eq_false_iff_ne.mpr h
      simp only [List.filter_cons, List.lookup, hk'a]
      simp only [decide_not]
      simpa using ih
    · by_cases hk'a : k' = a
      · subst hk'a
        simp [List.filter_cons, List.lookup, hak]
      · have hne : (k' == a) = false := beq_eq_false_iff_ne.mpr hk'a
        simp [List.filter_cons, List.lookup, hak, hne]
        simpa using ih

theorem lookup_setKw_self (kw : Kwargs) (k v : String) :
    (setKw kw k v).lookup k = some v := by
  simp [setKw, List.lookup]

theorem lookup_setKw_other (kw : Kwargs) (k k' v : String) (h : k' ≠ k) :
    (setKw kw k v).lookup k' = kw.lookup k' := by
  unfold setKw
  have hne : (k' == k) = false := beq_eq_false_iff_ne.mpr h
  simp only [List.lookup, hne]
  simpa using lookup_filter_ne kw k k' h

theorem getResp_redirect_inv (shows : List Show) (now : Nat) (dtc : Bool)
    (raw : Option RawDate) (kwargs query : Kwargs) (d' : Nat)
    (kw' q' : Kwargs) (s : Show)
    (h : getResp shows now dtc raw kwargs query =
      Response.redirect d' kw' q' s) :
    d' = dateOf s.showtime
    ∧ kw' = setKw kwargs "date" (fmtDate (dateOf s.showtime))
    ∧ q' = [] := by
  match raw with
  | none =>
    cases hg : _get_object shows now dtc none with
    | none => simp [getResp, hg] at h
    | some o =>
      simp [getResp, hg] at h
      obtain ⟨hd, hk, hq, hs⟩ := h
      subst hs
      exact ⟨hd.symm, hk.symm, hq⟩
  | some r =>
    match hiso : r.iso? with
    | some d =>
      cases hg : _get_object shows now dtc (some (midnight d)) with
      | none => simp [getResp, hiso, hg] at h
      | some o =>
        by_cases hd : dateOf o.showtime = d
        · simp [getResp, hiso, hg, hd] at h
        · simp [getResp, hiso, hg, hd] at h
          obtain ⟨hd2, hk, hq, hs⟩ := h
          subst hs
          exact ⟨hd2.symm, hk.symm, hq⟩
    | none =>
      match hleg : r.legacy? with
      | some d =>
        cases hg : _get_object shows now dtc (some (midnight d)) with
        | none => simp [getResp, hiso, hleg, hg] at h
        | some o =>
          simp [getResp, hiso, hleg, hg] at h
          obtain ⟨hd2, hk, hq, hs⟩ := h
          subst hs
          exact ⟨hd2.symm, hk.symm, hq⟩
      | none => simp [getResp, hiso, hleg] at h

/-- The spec asserts a redirect preserves every non-date path and query
component; the code builds the target with `reverse(name, kwargs)` alone,
so the request's query string is dropped.  Concretely: a no-date request
carrying query `?foo=bar` redirects to a target URL with an empty query. -/
theorem C9_counterexample : ¬ C9_claim := by
  intro h
  have := h [⟨0, 2000, 2100⟩] 3000 false none [] [("foo", "bar")] 1
    (setKw [] "date" (fmtDate 1)) [] ⟨0, 2000, 2100⟩ (by decide)
  exact absurd this.2 (by decide)

/-- C9 (amended): a redirect target's kwargs agree with the request's
kwargs on every key other than `date`, whose value becomes the canonical
rendering of the redirect's date token; the target URL carries no query
string (the request's query components are not preserved). -/
theorem C9_amended_frame (shows : List Show) (now : Nat) (dtc : Bool)
    (raw : Option RawDate) (kwargs query : Kwargs) (d' : Nat)
    (kw' q' : Kwargs) (s : Show)
    (h : getResp shows now dtc raw kwargs query =
      Response.redirect d' kw' q' s) :
    (∀ k, k ≠ "date" → kw'.lookup k = kwargs.lookup k)
    ∧ kw'.lookup "date" = some (fmtDate d') ∧ q' = [] := by
  obtain ⟨hd, hk, hq⟩ :=
    getResp_redirect_inv shows now dtc raw kwargs query d' kw' q' s h
  subst hd
  subst hk
  exact ⟨fun k hne => lookup_setKw_other kwargs "date" k _ hne,
    lookup_setKw_self kwargs "date" _, hq⟩

/-- Witness for the amended C9 at concrete data: a non-date kwarg survives
the redirect and the date kwarg is canonicalized. -/
theorem C9_witness :
    (setKw [("page", "2")] "date" (fmtDate 1)).lookup "page" =
      [("page", "2")].lookup "page"
    ∧ (setKw [("page", "2")] "date" (fmtDate 1)).lookup "date" =
      some (fmtDate 1) :=
  have h := C9_amended_frame [⟨0, 2000, 2100⟩] 3000 false none
    [("page", "2")] [("q", "x")] 1
    (setKw [("page", "2")] "date" (fmtDate 1)) [] ⟨0, 2000, 2100⟩
    (by decide)
  ⟨h.1 "page" (by decide), h.2.1⟩
